import Mathlib

/-!
Verification of the resource-bookkeeping and constraint-based allocation core
of cyclecloud-scalelib (`src/hpc/autoscale/node/node.py`), shallowly embedded
in Lean.

The embedding models the parts of `Node` the allocation engine touches:
the mutable `available` mapping, `assignments`, the `closed` / `keep_alive` /
`_allocated` / `exists` flags, `placement_group`, `metadata` and `resources`.
Python dictionaries are modelled as association lists, sets as duplicate-free
lists built by conditional insertion, and methods that raise `RuntimeError`
return `Except String`. The assertion in the packing loop of
`Node.decrement` is modelled by an `Option` result (`none` = assertion
failure / abort).
-/

deriving instance DecidableEq for Except

/-- Log levels used by `Node.update` (`logging.FINE` / `logging.WARNING`). -/
inductive LogLevel where
  | fine : LogLevel
  | warning : LogLevel
deriving DecidableEq

/-- Dictionary lookup on an association list (Python `d.get(k)`). -/
def dictGet : List (String × Int) → String → Option Int
  | [], _ => none
  | p :: rest, k => if p.1 = k then some p.2 else dictGet rest k

/-- Write one key of an association list (Python `d[k] = v`): overwrite the
entry in place when the key is present, append otherwise. -/
def dictSet (d : List (String × Int)) (k : String) (v : Int) : List (String × Int) :=
  if d.any (fun p => p.1 = k) then
    d.map (fun p => if p.1 = k then (k, v) else p)
  else
    d ++ [(k, v)]

/-- Python `d.update(other)`: write every key of `other` into `d`, in order. -/
def dictUpdate (d other : List (String × Int)) : List (String × Int) :=
  other.foldl (fun acc p => dictSet acc p.1 p.2) d

/-- Python `s.add(x)` on a set modelled as a duplicate-free list. -/
def sinsert (s : List String) (x : String) : List String :=
  if x ∈ s then s else s ++ [x]

/-- Python `s.update(other)` on sets modelled as duplicate-free lists. -/
def sunion (s other : List String) : List String :=
  other.foldl sinsert s

/-- Result of `NodeConstraint.satisfied_by_node`: truthiness (`ok`) plus the
failure reasons the result object carries. -/
structure SatisfiedResult where
  ok : Bool
  reasons : List String
deriving DecidableEq

/-- The state of a `Node` that the allocation core reads or writes.
`allocated` embeds the Python attribute `_allocated`; `exists_flag` embeds
the `exists` property (Lean reserves the name `exists`). -/
structure Node where
  closed : Bool
  keep_alive : Bool
  allocated : Bool
  exists_flag : Bool
  placement_group : Option String
  assignments : List String
  available : List (String × Int)
  resources : List (String × Int)
  metadata : List (String × Int)
deriving DecidableEq

/-- The capability contract of a placement constraint (`NodeConstraint`):
`satisfied_by_node` is a pure predicate, `minimum_space` reports a packing
bound (or `-1` for unbounded), and `do_decrement` reserves one unit,
returning the mutated node or `none` when it fails. -/
structure NodeConstraint where
  satisfied_by_node : Node → SatisfiedResult
  minimum_space : Node → Int
  do_decrement : Node → Option Node

/-- Modelled from the spec: the `MatchResult` record returned by `decrement`
(`hpc/autoscale/results.py` is not among the sources). Per the external
interface section it carries a status string, a slot count and the rejection
reasons; the constructor stores the values its caller passes (the `node`
reference is returned separately by the embedded `decrement`). -/
structure MatchResult where
  status : String
  slots : Int
  reasons : List String
deriving DecidableEq

/-- The getter `Node.required`: `keep_alive or _allocated or bool(assignments)`. -/
def Node.required (n : Node) : Bool :=
  n.keep_alive || n.allocated || !n.assignments.isEmpty

/-- The setter `Node.required = value`: writes only `_allocated`. -/
def Node.set_required (n : Node) (value : Bool) : Node :=
  { n with allocated := value }

/-- The fold inside the module-level `minimum_space`: starting from the
current optional minimum, take each constraint value `v` in turn and, when
`v > -1`, either seed the minimum with `v` or take the min. -/
def msFold : List Int → Option Int → Option Int
  | [], acc => acc
  | v :: rest, acc =>
      if v > -1 then
        match acc with
        | none => msFold rest (some v)
        | some m => msFold rest (some (min m v))
      else
        msFold rest acc

/-- The module-level function `minimum_space(constraints, node)`:
`min_space = None if constraints else 1`, then fold the per-constraint
minimum-space values, keeping only those `> -1`; `None` at the end
becomes the sentinel `-1`. -/
def minimum_space (constraints : List NodeConstraint) (node : Node) : Int :=
  let init : Option Int := if constraints.isEmpty then some 1 else none
  match msFold (constraints.map (fun c => c.minimum_space node)) init with
  | none => -1
  | some m => m

/-- The inner packing loop of `Node.decrement`: call `c.do_decrement`
`k` times, aborting (`none`) when a call fails. -/
def packOne (c : NodeConstraint) : Nat → Node → Option Node
  | 0, n => some n
  | k + 1, n => (c.do_decrement n).bind (packOne c k)

/-- The outer packing loop of `Node.decrement`: for each constraint in order,
run the inner loop `k` times. -/
def packAll : List NodeConstraint → Nat → Node → Option Node
  | [], _, n => some n
  | c :: rest, k, n => (packOne c k n).bind (packAll rest k)

/-- The local variable `to_pack` of `Node.decrement`: the `-1` sentinel from
`minimum_space` is replaced by `iterations`, then the min with `iterations`
is taken. -/
def decrementToPack (constraints : List NodeConstraint) (node : Node)
    (iterations : Int) : Int :=
  min iterations
    (if minimum_space constraints node = -1 then iterations
     else minimum_space constraints node)

/-- The local variable `reasons` of `Node.decrement`: the failure reasons of
the unsatisfied constraints, accumulated by `reasons.extend` in constraint
order. -/
def decrementReasons (constraints : List NodeConstraint) (node : Node) :
    List String :=
  ((constraints.map (fun c => c.satisfied_by_node node)).filter
    (fun r => !r.ok)).foldl (fun acc r => acc ++ r.reasons) []

/-- Method `Node.decrement(constraints, iterations, assignment_id)`: returns the
`MatchResult` and the resulting node state; `none` models the assertion
failure in the packing loop. The `assignment_id` is passed explicitly
(the Python default generates a fresh uuid). -/
def Node.decrement (node : Node) (constraints : List NodeConstraint)
    (iterations : Int) (assignment_id : String) : Option (MatchResult × Node) :=
  if node.closed then
    some ({ status := "NodeClosed", slots := iterations, reasons := [] }, node)
  else if (constraints.map (fun c => c.satisfied_by_node node)).any
      (fun r => !r.ok) then
    some ({ status := "NodeRejected", slots := iterations,
            reasons := decrementReasons constraints node }, node)
  else
    match packAll constraints (decrementToPack constraints node iterations).toNat
        node with
    | none => none
    | some node2 =>
        some ({ status := "success",
                slots := decrementToPack constraints node iterations,
                reasons := [] },
          { node2 with
            allocated := true,
            assignments := sinsert node2.assignments assignment_id })

/-- Method `Node.assign(assignment_id)`: add the id to the assignment set. -/
def Node.assign (n : Node) (assignment_id : String) : Node :=
  { n with assignments := sinsert n.assignments assignment_id }

/-- The setter `Node.closed = value`: setting `True` always succeeds; setting
`False` on a closed node raises; setting `False` on an open node is a no-op. -/
def Node.set_closed (n : Node) (value : Bool) : Except String Node :=
  if value then
    Except.ok { n with closed := true }
  else if n.closed then
    Except.error "Can not unclose a job."
  else
    Except.ok n

/-- One character of the class `[a-zA-Z0-9_-]`. -/
def pgCharOk (c : Char) : Bool :=
  (decide (c ≥ 'a') && decide (c ≤ 'z')) ||
  (decide (c ≥ 'A') && decide (c ≤ 'Z')) ||
  (decide (c ≥ '0') && decide (c ≤ '9')) ||
  c = '_' || c = '-'

/-- Python `re.match("^[a-zA-Z0-9_-]+$", s)`, modelled over the character
list `s.data`: one or more characters of the class; in Python, `$` also
matches just before one newline at the very end of the string, so a single
trailing newline after a non-empty run of class characters is accepted. -/
def pgRegexMatch (s : String) : Bool :=
  let core := if s.data.getLast? = some (Char.ofNat 10) then s.data.dropLast
    else s.data
  !core.isEmpty && core.all pgCharOk

/-- Python truthiness of the optional placement-group string. -/
def optTruthy : Option String → Bool
  | none => false
  | some s => !s.isEmpty

/-- The setter `Node.placement_group = value`: an empty string normalises to
`None`; changing a set group to a different value raises when the node
exists; a truthy value failing the regex raises; otherwise the value is
stored. -/
def Node.set_placement_group (node : Node) (value0 : Option String) :
    Except String Node :=
  let value : Option String :=
    match value0 with
    | some s => if s.isEmpty then none else some s
    | none => none
  if optTruthy node.placement_group ∧ value ≠ node.placement_group ∧
      node.exists_flag then
    Except.error "Can not change the placement group of an existing node"
  else
    match value with
    | some s =>
        if pgRegexMatch s then
          Except.ok { node with placement_group := some s }
        else
          Except.error
            "Invalid placement_group - must only contain letters, numbers, - or _"
    | none => Except.ok { node with placement_group := none }

/-- Method `Node.clone()`: the constructor produces a fresh node (not closed, not
allocated, empty assignment set) carrying over the flags and
`placement_group`; `available` starts as a copy of `resources` and is then
overwritten with the `available` of the original, and `metadata` is copied.
The constructor re-runs the placement-group setter, which cannot fail on a
value that setter itself stored, so the embedding is total. -/
def Node.clone (n : Node) : Node :=
  { closed := false
    keep_alive := n.keep_alive
    allocated := false
    exists_flag := n.exists_flag
    placement_group := n.placement_group
    assignments := []
    available := dictUpdate n.resources n.available
    resources := n.resources
    metadata := n.metadata }

/-- The log lines emitted by `Node.update(snode)`: one per key of
`snode.available` whose value differs from the current one, at `FINE`
level when the current value is unset or `snode` has assignments, else
at `WARNING` level. -/
def updateLogs (self snode : Node) : List (LogLevel × String) :=
  snode.available.filterMap (fun p =>
    if dictGet self.available p.1 ≠ some p.2 then
      some
        (if dictGet self.available p.1 = none ∨ ¬snode.assignments.isEmpty = true
          then LogLevel.fine else LogLevel.warning, p.1)
    else none)

/-- Method `Node.update(snode)`: log the changed keys, overwrite `available`
key-by-key from `snode.available`, set `required` (i.e. `_allocated`) to
`self.required or snode.required or bool(snode.assignments)`, union the
assignment sets and merge the metadata. Returns the updated node and the
log lines. -/
def Node.update (self snode : Node) : Node × List (LogLevel × String) :=
  let logs := updateLogs self snode
  let self1 := { self with available := dictUpdate self.available snode.available }
  let self2 := self1.set_required
    (self1.required || snode.required || !snode.assignments.isEmpty)
  let self3 := { self2 with
    assignments := sunion self2.assignments snode.assignments
    metadata := dictUpdate self2.metadata snode.metadata }
  (self3, logs)

/-- The packing bound as the claim states it, written from the words of the spec:
`toPack = min(iterations, m)` where `m` is the minimum over the finite
(`> -1`) per-constraint minimum-space values, and `m = iterations` when
every constraint returns `-1`. Folding `min` over the finite values with
`iterations` as the start realises both clauses at once. -/
def toPackSpec (constraints : List NodeConstraint) (node : Node)
    (iterations : Int) : Int :=
  ((constraints.map (fun c => c.minimum_space node)).filter
    (fun v => v > -1)).foldl min iterations

/-- A baseline concrete node used by witnesses and counterexamples. -/
def baseNode : Node :=
  { closed := false
    keep_alive := false
    allocated := false
    exists_flag := false
    placement_group := none
    assignments := []
    available := [("slots", 4)]
    resources := [("slots", 4)]
    metadata := [] }

/-- A concrete constraint that is always satisfied, reports the given
minimum space, and decrements one `slots` unit. -/
def slotsConstraint (ms : Int) : NodeConstraint :=
  { satisfied_by_node := fun _ => { ok := true, reasons := [] }
    minimum_space := fun _ => ms
    do_decrement := fun n =>
      some { n with
        available := dictSet n.available "slots"
          ((dictGet n.available "slots").getD 0 - 1) } }

/-- The rejection reasons as the spec phrases them: the concatenation, in
constraint order, of the failure reasons of every unsatisfied constraint. -/
def rejectionReasons (constraints : List NodeConstraint) (node : Node) :
    List String :=
  ((constraints.filter (fun c => !(c.satisfied_by_node node).ok)).map
    (fun c => (c.satisfied_by_node node).reasons)).flatten

/-- A concrete constraint that always fails with one reason. -/
def gpuFailConstraint : NodeConstraint :=
  { satisfied_by_node := fun _ => { ok := false, reasons := ["insufficient GPU"] }
    minimum_space := fun _ => -1
    do_decrement := fun n => some n }

theorem required_of_assignments (n : Node) (h : n.assignments ≠ []) :
    n.required = true := by
  cases hq : n.assignments with
  | nil => exact absurd hq h
  | cons a l => simp [Node.required, hq]

/-- C3: on a closed node, `decrement` returns `NodeClosed` with
`slots == iterations` and the node itself unchanged; the result does not
depend on the constraint list, so no constraint is consulted and no
mutation occurs. -/
theorem c3_closed_decrement (node : Node) (constraints : List NodeConstraint)
    (iterations : Int) (aid : String)
    (hclosed : node.closed = true) (hiter : 1 ≤ iterations) :
    Node.decrement node constraints iterations aid =
      some ({ status := "NodeClosed", slots := iterations, reasons := [] }, node) := by
  simp [Node.decrement, hclosed]

/-- Witness for C3 at a concrete closed node. -/
theorem c3_closed_decrement_witness :
    Node.decrement { baseNode with closed := true } [gpuFailConstraint] 3 "a" =
      some ({ status := "NodeClosed", slots := 3, reasons := [] },
        { baseNode with closed := true }) :=
  c3_closed_decrement { baseNode with closed := true } [gpuFailConstraint] 3 "a"
    rfl (by decide)

/-- C7: a node with a non-empty assignment set reads back `required == true`;
since the `required` getter itself includes `bool(assignments)`, the
invariant holds of every node state and is therefore preserved by
`decrement`, `assign`, `update`, the `required` setter and `clone`. -/
theorem c7_assignments_imply_required :
    (∀ n : Node, n.assignments ≠ [] → n.required = true) ∧
    (∀ (n : Node) (cs : List NodeConstraint) (it : Int) (aid : String)
      (r : MatchResult) (n2 : Node),
        Node.decrement n cs it aid = some (r, n2) →
        n2.assignments ≠ [] → n2.required = true) ∧
    (∀ (n : Node) (aid : String),
      (n.assign aid).assignments ≠ [] → (n.assign aid).required = true) ∧
    (∀ self snode : Node,
      (self.update snode).1.assignments ≠ [] → (self.update snode).1.required = true) ∧
    (∀ (n : Node) (v : Bool),
      (n.set_required v).assignments ≠ [] → (n.set_required v).required = true) ∧
    (∀ n : Node, n.clone.assignments ≠ [] → n.clone.required = true) :=
  ⟨fun n h => required_of_assignments n h,
   fun _ _ _ _ _ n2 _ h => required_of_assignments n2 h,
   fun n aid h => required_of_assignments (n.assign aid) h,
   fun self snode h => required_of_assignments (self.update snode).1 h,
   fun n v h => required_of_assignments (n.set_required v) h,
   fun n h => required_of_assignments n.clone h⟩

/-- Witness for C7 at a concrete node with one assignment. -/
theorem c7_assignments_imply_required_witness :
    ({ baseNode with assignments := ["job-1"] } : Node).required = true :=
  c7_assignments_imply_required.1 { baseNode with assignments := ["job-1"] }
    (by decide)

/-- C8: the `closed` flag is monotonic: setting it to `True` always succeeds,
setting it to `False` on a closed node raises (and, the error carrying no
updated node, the flag stays `true`), and setting it to `False` on a
never-closed node succeeds and leaves the node unchanged. -/
theorem c8_closed_monotonic (n : Node) :
    (Node.set_closed n true = Except.ok { n with closed := true } ∧
      ({ n with closed := true } : Node).closed = true) ∧
    (n.closed = true →
      Node.set_closed n false = Except.error "Can not unclose a job.") ∧
    (n.closed = false → Node.set_closed n false = Except.ok n) := by
  refine ⟨⟨rfl, rfl⟩, fun h => ?_, fun h => ?_⟩ <;> simp [Node.set_closed, h]

/-- Witness for C8: unclosing a concrete closed node errors; setting `false`
on a concrete open node is a no-op. -/
theorem c8_closed_monotonic_witness :
    Node.set_closed { baseNode with closed := true } false =
      Except.error "Can not unclose a job." ∧
    Node.set_closed baseNode false = Except.ok baseNode :=
  ⟨(c8_closed_monotonic { baseNode with closed := true }).2.1 rfl,
   (c8_closed_monotonic baseNode).2.2 rfl⟩

/-- C9: `minimum_space` of an empty constraint list is `1`, not the
unbounded sentinel `-1`, so `decrement` with no constraints on a non-closed
node packs exactly `min(iterations, 1) = 1` unit even when
`iterations > 1`. -/
theorem c9_empty_constraints (n : Node) (iterations : Int) (aid : String)
    (hclosed : n.closed = false) (hiter : 1 ≤ iterations) :
    minimum_space [] n = 1 ∧
    Node.decrement n [] iterations aid =
      some ({ status := "success", slots := 1, reasons := [] },
        { n with allocated := true, assignments := sinsert n.assignments aid }) := by
  refine ⟨rfl, ?_⟩
  simp [Node.decrement, hclosed, decrementToPack, minimum_space, msFold,
    packAll, min_eq_right hiter]

/-- Witness for C9 at a concrete node with `iterations = 5`. -/
theorem c9_empty_constraints_witness :
    Node.decrement baseNode [] 5 "a" =
      some ({ status := "success", slots := 1, reasons := [] },
        { baseNode with allocated := true, assignments := ["a"] }) := by
  have h := (c9_empty_constraints baseNode 5 "a" rfl (by decide)).2
  simpa [sinsert, baseNode] using h

/-- C10: the `required` setter writes only the internal `_allocated` flag and
the getter is the disjunction `keep_alive or _allocated or bool(assignments)`;
hence on a node with `keep_alive` set or a non-empty assignment set,
assigning `required = False` does not change the value read back, which
remains `true`. -/
theorem c10_required_setter (n : Node) (v : Bool)
    (h : n.keep_alive = true ∨ n.assignments ≠ []) :
    Node.set_required n v = { n with allocated := v } ∧
    n.required = (n.keep_alive || n.allocated || !n.assignments.isEmpty) ∧
    (n.set_required false).required = true ∧
    n.required = true := by
  refine ⟨rfl, rfl, ?_, ?_⟩ <;>
    rcases h with h | h <;> simp [Node.set_required, Node.required, h]

/-- Witness for C10 at a concrete `keep_alive` node. -/
theorem c10_required_setter_witness :
    (Node.set_required { baseNode with keep_alive := true } false).required = true ∧
    ({ baseNode with keep_alive := true } : Node).required = true :=
  ⟨(c10_required_setter { baseNode with keep_alive := true } false (Or.inl rfl)).2.2.1,
   (c10_required_setter { baseNode with keep_alive := true } false (Or.inl rfl)).2.2.2⟩

theorem foldl_append_reasons (l : List SatisfiedResult) (acc : List String) :
    l.foldl (fun a r => a ++ r.reasons) acc =
      acc ++ (l.map (fun r => r.reasons)).flatten := by
  induction l generalizing acc with
  | nil => simp
  | cons r t ih => simp [ih, List.append_assoc]

theorem filter_map_comm {α β : Type} (f : α → β) (p : β → Bool) (l : List α) :
    (l.map f).filter p = (l.filter (fun a => p (f a))).map f := by
  induction l with
  | nil => rfl
  | cons a t ih => by_cases h : p (f a) = true <;> simp [h, ih]

theorem decrementReasons_eq (constraints : List NodeConstraint) (node : Node) :
    decrementReasons constraints node = rejectionReasons constraints node := by
  unfold decrementReasons rejectionReasons
  rw [foldl_append_reasons, filter_map_comm]
  simp only [List.nil_append, List.map_map]
  rfl

/-- C2: on a non-closed node, when at least one constraint is unsatisfied,
`decrement` evaluates `satisfied_by_node` on every constraint, collecting
the failure reasons of all unsatisfied constraints (no short-circuit),
returns `NodeRejected` with those reasons, and returns the node itself
unchanged (same `available`, `assignments` and `_allocated`); when every
unsatisfied constraint carries at least one reason, the collected reasons
are non-empty. -/
theorem c2_rejected_collects_reasons (node : Node)
    (constraints : List NodeConstraint) (iterations : Int) (aid : String)
    (hclosed : node.closed = false)
    (hex : ∃ c ∈ constraints, (c.satisfied_by_node node).ok = false)
    (hwf : ∀ c ∈ constraints, (c.satisfied_by_node node).ok = false →
      (c.satisfied_by_node node).reasons ≠ []) :
    Node.decrement node constraints iterations aid =
      some ({ status := "NodeRejected", slots := iterations,
              reasons := rejectionReasons constraints node }, node) ∧
    rejectionReasons constraints node ≠ [] := by
  obtain ⟨c0, hc0, hok0⟩ := hex
  have hany : (constraints.map (fun c => c.satisfied_by_node node)).any
      (fun r => !r.ok) = true := by
    rw [List.any_eq_true]
    exact ⟨c0.satisfied_by_node node, List.mem_map_of_mem _ hc0, by simp [hok0]⟩
  constructor
  · rw [Node.decrement, if_neg (by simp [hclosed]), if_pos hany,
      decrementReasons_eq]
  · intro hjoin
    unfold rejectionReasons at hjoin
    rw [List.flatten_eq_nil_iff] at hjoin
    have h0 : (c0.satisfied_by_node node).reasons ∈
        ((constraints.filter (fun c => !(c.satisfied_by_node node).ok)).map
          (fun c => (c.satisfied_by_node node).reasons)) := by
      refine List.mem_map_of_mem _ ?_
      rw [List.mem_filter]
      exact ⟨hc0, by simp [hok0]⟩
    exact hwf c0 hc0 hok0 (hjoin _ h0)

/-- Witness for C2 at a concrete failing constraint. -/
theorem c2_rejected_collects_reasons_witness :
    Node.decrement baseNode [gpuFailConstraint] 3 "a" =
      some ({ status := "NodeRejected", slots := 3,
              reasons := rejectionReasons [gpuFailConstraint] baseNode },
        baseNode) :=
  (c2_rejected_collects_reasons baseNode [gpuFailConstraint] 3 "a" rfl
    ⟨gpuFailConstraint, by simp, rfl⟩
    (fun c hc _ => by
      rw [List.mem_singleton] at hc
      subst hc
      decide)).1

/-- C4 counterexample: a concrete call returning `NodeRejected` reports
`slots == 3`, the requested count, while the claim says the slots field
equals `0` on the rejection path. -/
theorem c4_counterexample :
    (Node.decrement baseNode [gpuFailConstraint] 3 "a").map
        (fun p => (p.1.status, p.1.slots)) = some ("NodeRejected", 3) ∧
    (3 : Int) ≠ 0 :=
  ⟨rfl, by decide⟩

/-- C4 (amended): every `decrement` call that returns a `NodeRejected`
result reports `slots == iterations`, echoing the originally requested
count exactly as the `NodeClosed` path does, rather than `0`. -/
theorem c4_rejected_slots_echo (node : Node) (constraints : List NodeConstraint)
    (iterations : Int) (aid : String) (res : MatchResult) (n2 : Node)
    (hres : Node.decrement node constraints iterations aid = some (res, n2))
    (hstat : res.status = "NodeRejected") :
    res.slots = iterations := by
  by_cases hcl : node.closed = true
  · rw [Node.decrement, if_pos hcl, Option.some_inj] at hres
    injection hres with hA hB
    rw [← hA] at hstat
    simp at hstat
  · rw [Node.decrement, if_neg hcl] at hres
    by_cases hany : (constraints.map (fun c => c.satisfied_by_node node)).any
        (fun r => !r.ok) = true
    · rw [if_pos hany, Option.some_inj] at hres
      injection hres with hA hB
      rw [← hA]
    · rw [if_neg hany] at hres
      cases hpack : packAll constraints
          (decrementToPack constraints node iterations).toNat node with
      | none =>
          rw [hpack] at hres
          exact absurd hres (by simp)
      | some node2 =>
          rw [hpack] at hres
          rw [Option.some_inj] at hres
          injection hres with hA hB
          rw [← hA] at hstat
          simp at hstat

/-- Witness for the amended C4 theorem at a concrete rejected call. -/
theorem c4_rejected_slots_echo_witness :
    ({ status := "NodeRejected", slots := 3,
       reasons := ["insufficient GPU"] } : MatchResult).slots = 3 :=
  c4_rejected_slots_echo baseNode [gpuFailConstraint] 3 "a"
    { status := "NodeRejected", slots := 3, reasons := ["insufficient GPU"] }
    baseNode (by decide) rfl

theorem msFold_some (vals : List Int) (a : Int) :
    msFold vals (some a) = some ((vals.filter (fun v => v > -1)).foldl min a) := by
  induction vals generalizing a with
  | nil => simp [msFold]
  | cons v rest ih => by_cases h : v > -1 <;> simp [msFold, h, ih]

theorem msFold_none (vals : List Int) :
    msFold vals none =
      match vals.filter (fun v => v > -1) with
      | [] => none
      | v :: rest => some (rest.foldl min v) := by
  induction vals with
  | nil => simp [msFold]
  | cons v rest ih => by_cases h : v > -1 <;> simp [msFold, h, ih, msFold_some]

theorem foldl_min_gt (l : List Int) (a bound : Int)
    (ha : bound < a) (hl : ∀ x ∈ l, bound < x) : bound < l.foldl min a := by
  induction l generalizing a with
  | nil => simpa using ha
  | cons x t ih =>
      simp only [List.foldl_cons]
      exact ih (min a x) (lt_min ha (hl x (List.mem_cons_self x t)))
        (fun y hy => hl y (List.mem_cons_of_mem _ hy))

theorem foldl_min_min (l : List Int) (a b : Int) :
    l.foldl min (min a b) = min a (l.foldl min b) := by
  induction l generalizing b with
  | nil => simp
  | cons x t ih =>
      simp only [List.foldl_cons]
      rw [min_assoc, ih]

theorem foldl_min_le (l : List Int) (a : Int) : l.foldl min a ≤ a := by
  induction l generalizing a with
  | nil => simp
  | cons x t ih =>
      simp only [List.foldl_cons]
      exact le_trans (ih (min a x)) (min_le_left a x)

/-- On a non-empty constraint list, the `to_pack` the code computes equals
the description in the spec: the min of `iterations` and the finite (`> -1`)
per-constraint minimum-space values. -/
theorem decrementToPack_eq_spec (constraints : List NodeConstraint)
    (node : Node) (iterations : Int) (hne : constraints ≠ []) :
    decrementToPack constraints node iterations =
      toPackSpec constraints node iterations := by
  have hie : constraints.isEmpty = false := by
    cases constraints with
    | nil => exact absurd rfl hne
    | cons c t => rfl
  unfold decrementToPack toPackSpec minimum_space
  rw [hie]
  simp only [Bool.false_eq_true, if_false, msFold_none]
  cases hf : (constraints.map (fun c => c.minimum_space node)).filter
      (fun v => v > -1) with
  | nil => simp
  | cons v rest =>
      have hmem : ∀ x ∈ v :: rest, (-1 : Int) < x := by
        intro x hx
        have : (decide (x > -1)) = true := List.of_mem_filter (p := fun v => v > -1)
          (by rw [hf]; exact hx)
        simpa using this
      have hgt : (-1 : Int) < rest.foldl min v :=
        foldl_min_gt rest v (-1) (hmem v (List.mem_cons_self v rest))
          (fun y hy => hmem y (List.mem_cons_of_mem _ hy))
      have hne2 : rest.foldl min v ≠ -1 := by omega
      dsimp only
      rw [if_neg hne2, List.foldl_cons, foldl_min_min]

theorem packOne_total (c : NodeConstraint)
    (h : ∀ m : Node, (c.do_decrement m).isSome = true) (k : Nat) :
    ∀ n : Node, ∃ n2, packOne c k n = some n2 := by
  induction k with
  | zero => exact fun n => ⟨n, rfl⟩
  | succ k ih =>
      intro n
      obtain ⟨m1, hm1⟩ := Option.isSome_iff_exists.mp (h n)
      obtain ⟨n2, hn2⟩ := ih m1
      exact ⟨n2, by simp [packOne, hm1, hn2]⟩

theorem packAll_total : ∀ constraints : List NodeConstraint,
    (∀ c ∈ constraints, ∀ m : Node, (c.do_decrement m).isSome = true) →
    ∀ (k : Nat) (n : Node), ∃ n2, packAll constraints k n = some n2 := by
  intro constraints
  induction constraints with
  | nil => exact fun _ k n => ⟨n, rfl⟩
  | cons c rest ih =>
      intro hdec k n
      obtain ⟨m2, hm2⟩ := packOne_total c
        (fun m => hdec c (List.mem_cons_self c rest) m) k n
      obtain ⟨n2, hn2⟩ := ih
        (fun c' hc' m => hdec c' (List.mem_cons_of_mem _ hc') m) k m2
      exact ⟨n2, by simp [packAll, hm2, hn2]⟩

/-- C1 (amended): for every non-closed node and every NON-EMPTY constraint
list in which every constraint is satisfied (and whose `do_decrement` honours
its contract of never failing), `decrement` succeeds and reports
`slots == toPack == min(iterations, m)` where `m` is the minimum of the
finite (`> -1`) minimum-space values, `toPack ≤ iterations`, and when every
constraint returns `-1` the bound degenerates to `iterations` itself. The
original claim quantified over all constraint lists; the empty list is the
one exception (see the counterexample and C9). -/
theorem c1_success_packs_min (node : Node) (constraints : List NodeConstraint)
    (iterations : Int) (aid : String)
    (hclosed : node.closed = false)
    (hne : constraints ≠ [])
    (hsat : ∀ c ∈ constraints, (c.satisfied_by_node node).ok = true)
    (hdec : ∀ c ∈ constraints, ∀ m : Node, (c.do_decrement m).isSome = true) :
    (∃ n2 : Node,
      Node.decrement node constraints iterations aid =
        some ({ status := "success",
                slots := toPackSpec constraints node iterations,
                reasons := [] }, n2)) ∧
    toPackSpec constraints node iterations ≤ iterations ∧
    ((∀ c ∈ constraints, c.minimum_space node = -1) →
      toPackSpec constraints node iterations = iterations) := by
  have hany : (constraints.map (fun c => c.satisfied_by_node node)).any
      (fun r => !r.ok) = false := by
    rw [List.any_eq_false]
    intro r hr
    obtain ⟨c, hc, hcr⟩ := List.mem_map.mp hr
    simp [← hcr, hsat c hc]
  have hts := decrementToPack_eq_spec constraints node iterations hne
  obtain ⟨n2, hn2⟩ := packAll_total constraints hdec
    (decrementToPack constraints node iterations).toNat node
  refine ⟨⟨{ n2 with allocated := true, assignments := sinsert n2.assignments aid }, ?_⟩, ?_, ?_⟩
  · rw [Node.decrement, if_neg (by simp [hclosed]), if_neg (by simp [hany]),
      hn2, hts]
  · unfold toPackSpec
    exact foldl_min_le _ _
  · intro hall
    unfold toPackSpec
    have : (constraints.map (fun c => c.minimum_space node)).filter
        (fun v => v > -1) = [] := by
      rw [List.filter_eq_nil_iff]
      intro a ha
      obtain ⟨c, hc, hca⟩ := List.mem_map.mp ha
      rw [← hca, hall c hc]
      decide
    rw [this, List.foldl_nil]

/-- C1 counterexample: with the empty constraint list (whose every constraint
vacuously returns `-1`) and `iterations = 2`, the claim predicts
`toPack = min(2, 2) = 2` slots, but `minimum_space` returns `1` for an empty
list and the code packs a single unit. -/
theorem c1_counterexample :
    (Node.decrement baseNode [] 2 "a").map (fun p => p.1.slots) = some 1 ∧
    (1 : Int) ≠ min 2 2 :=
  ⟨rfl, by decide⟩

/-- Witness for the amended C1 theorem at a concrete all-satisfied call. -/
theorem c1_success_packs_min_witness :
    (∃ n2 : Node,
      Node.decrement baseNode [slotsConstraint 4] 10 "a" =
        some ({ status := "success",
                slots := toPackSpec [slotsConstraint 4] baseNode 10,
                reasons := [] }, n2)) ∧
    toPackSpec [slotsConstraint 4] baseNode 10 ≤ 10 ∧
    ((∀ c ∈ [slotsConstraint 4], c.minimum_space baseNode = -1) →
      toPackSpec [slotsConstraint 4] baseNode 10 = 10) :=
  c1_success_packs_min baseNode [slotsConstraint 4] 10 "a" rfl
    (List.cons_ne_nil _ _)
    (fun c hc => by rw [List.mem_singleton] at hc; subst hc; rfl)
    (fun c hc m => by rw [List.mem_singleton] at hc; subst hc; rfl)

theorem pgRegexMatch_ne_empty (v : String) (h : pgRegexMatch v = true) :
    v ≠ "" := by
  intro hv
  subst hv
  exact absurd h (by decide)

/-- Unfolding of the placement-group setter at a non-empty string value. -/
theorem set_placement_group_some (n : Node) (v : String)
    (hv : v.isEmpty = false) :
    n.set_placement_group (some v) =
      if optTruthy n.placement_group ∧ some v ≠ n.placement_group ∧
          n.exists_flag then
        Except.error "Can not change the placement group of an existing node"
      else if pgRegexMatch v then
        Except.ok { n with placement_group := some v }
      else
        Except.error
          "Invalid placement_group - must only contain letters, numbers, - or _" := by
  unfold Node.set_placement_group
  simp only [hv, Bool.false_eq_true, if_false]

/-- C5 counterexample: `"ab\n"` is non-empty and contains a character (the
trailing newline) outside `[A-Za-z0-9_-]`, yet the setter accepts it on a
node with no placement group, because the Python `$` also matches just before
a single newline at the end of the string; the claim says any non-empty
value containing a character outside the class raises an error. -/
theorem c5_counterexample :
    pgCharOk (Char.ofNat 10) = false ∧ Char.ofNat 10 ∈ "ab\n".toList ∧
    "ab\n" ≠ "" ∧
    Node.set_placement_group baseNode (some "ab\n") =
      Except.ok { baseNode with placement_group := some "ab\n" } := by
  refine ⟨by decide, by decide, by decide, ?_⟩
  rw [set_placement_group_some baseNode "ab\n" (by decide)]
  rw [if_neg (by simp [optTruthy, baseNode]), if_pos (by decide)]

/-- C5 (amended): the placement-group state machine, with the regex as the
code implements it: (a) a value accepted by the Python regex
`^[a-zA-Z0-9_-]+$` (class characters, optionally followed by one trailing
newline) is stored on a node whose group is unset; (b) any non-empty value
the regex rejects raises an error; (c) re-setting the stored (valid) value
is a successful no-op; (d) changing an already-set group to a different
value on an existing node raises an error. The only divergence from the
claim is the trailing-newline case shown in the counterexample. -/
theorem c5_placement_group_state_machine :
    (∀ (n : Node) (v : String), n.placement_group = none →
      pgRegexMatch v = true →
      n.set_placement_group (some v) =
        Except.ok { n with placement_group := some v }) ∧
    (∀ (n : Node) (v : String), v ≠ "" → pgRegexMatch v = false →
      ∃ e, n.set_placement_group (some v) = Except.error e) ∧
    (∀ (n : Node) (v : String), n.placement_group = some v →
      pgRegexMatch v = true →
      n.set_placement_group (some v) = Except.ok n) ∧
    (∀ (n : Node) (v v2 : String), n.placement_group = some v →
      n.exists_flag = true → v ≠ "" → v2 ≠ "" → v2 ≠ v →
      n.set_placement_group (some v2) =
        Except.error "Can not change the placement group of an existing node") := by
  have hemp : ∀ w : String, w ≠ "" → w.isEmpty = false := by
    intro w hw
    rw [Bool.eq_false_iff]
    intro h2
    exact hw ((String.isEmpty_iff w).mp h2)
  refine ⟨?_, ?_, ?_, ?_⟩
  · intro n v hpg hre
    rw [set_placement_group_some n v (hemp v (pgRegexMatch_ne_empty v hre))]
    rw [if_neg (by simp [hpg, optTruthy]), if_pos hre]
  · intro n v hv hre
    rw [set_placement_group_some n v (hemp v hv)]
    by_cases hcond : optTruthy n.placement_group ∧ some v ≠ n.placement_group ∧
        n.exists_flag
    · exact ⟨_, by rw [if_pos hcond]⟩
    · exact ⟨_, by rw [if_neg hcond, if_neg (by simp [hre])]⟩
  · intro n v hpg hre
    rw [set_placement_group_some n v (hemp v (pgRegexMatch_ne_empty v hre))]
    rw [if_neg (by simp [hpg]), if_pos hre, ← hpg]
  · intro n v v2 hpg hex hv hv2 hne
    rw [set_placement_group_some n v2 (hemp v2 hv2)]
    rw [if_pos ?_]
    refine ⟨?_, ?_, hex⟩
    · rw [hpg]
      simp [optTruthy, hemp v hv]
    · rw [hpg]
      simp [hne]

/-- Witness for the amended C5 theorem: all four transitions at concrete
inputs. -/
theorem c5_placement_group_state_machine_witness :
    Node.set_placement_group baseNode (some "pg1") =
      Except.ok { baseNode with placement_group := some "pg1" } ∧
    (∃ e, Node.set_placement_group baseNode (some "pg 1") = Except.error e) ∧
    Node.set_placement_group { baseNode with placement_group := some "pg1" }
        (some "pg1") =
      Except.ok { baseNode with placement_group := some "pg1" } ∧
    Node.set_placement_group
        { baseNode with placement_group := some "pg1", exists_flag := true }
        (some "pg2") =
      Except.error "Can not change the placement group of an existing node" :=
  ⟨c5_placement_group_state_machine.1 baseNode "pg1" rfl (by decide),
   c5_placement_group_state_machine.2.1 baseNode "pg 1" (by decide) (by decide),
   c5_placement_group_state_machine.2.2.1 _ "pg1" rfl (by decide),
   c5_placement_group_state_machine.2.2.2 _ "pg1" "pg2" rfl rfl (by decide)
     (by decide) (by decide)⟩

theorem dictGet_map_set_ne (d : List (String × Int)) (k k2 : String) (v : Int)
    (hne : k2 ≠ k) :
    dictGet (d.map (fun p => if p.1 = k then (k, v) else p)) k2 =
      dictGet d k2 := by
  induction d with
  | nil => rfl
  | cons p t ih =>
      by_cases h : p.1 = k
      · have hk2 : ¬(k = k2) := fun hh => hne hh.symm
        simp [dictGet, h, hk2, ih]
      · simp [dictGet, h, ih]

theorem dictGet_map_set_eq (d : List (String × Int)) (k : String) (v : Int)
    (hmem : d.any (fun p => p.1 = k) = true) :
    dictGet (d.map (fun p => if p.1 = k then (k, v) else p)) k = some v := by
  induction d with
  | nil => simp at hmem
  | cons p t ih =>
      by_cases h : p.1 = k
      · simp [dictGet, h]
      · rw [List.any_cons] at hmem
        simp only [h, decide_False, Bool.false_or] at hmem
        simp [dictGet, h, ih hmem]

theorem dictGet_append_single (d : List (String × Int)) (k k2 : String)
    (v : Int) (hmem : d.any (fun p => p.1 = k) = false) :
    dictGet (d ++ [(k, v)]) k2 = if k2 = k then some v else dictGet d k2 := by
  induction d with
  | nil =>
      by_cases h : k = k2
      · simp [dictGet, h]
      · have h2 : ¬(k2 = k) := fun hh => h hh.symm
        simp [dictGet, h, h2]
  | cons p t ih =>
      rw [List.any_cons] at hmem
      rw [Bool.or_eq_false_iff] at hmem
      have hpk : ¬(p.1 = k) := by simpa using hmem.1
      by_cases hpk2 : p.1 = k2
      · have hk2k : ¬(k2 = k) := fun hh => hpk (hpk2.trans hh)
        simp [dictGet, hpk2, hk2k]
      · simp [dictGet, hpk2, ih hmem.2]

theorem dictGet_dictSet (d : List (String × Int)) (k k2 : String) (v : Int) :
    dictGet (dictSet d k v) k2 = if k2 = k then some v else dictGet d k2 := by
  unfold dictSet
  by_cases hmem : d.any (fun p => p.1 = k) = true
  · rw [if_pos hmem]
    by_cases hk : k2 = k
    · subst hk
      rw [if_pos rfl, dictGet_map_set_eq d k2 v hmem]
    · rw [if_neg hk, dictGet_map_set_ne d k k2 v hk]
  · have hmem2 : d.any (fun p => p.1 = k) = false := by
      rwa [Bool.not_eq_true] at hmem
    rw [if_neg hmem, dictGet_append_single d k k2 v hmem2]

theorem dictGet_eq_none (d : List (String × Int)) (k : String)
    (h : k ∉ d.map Prod.fst) : dictGet d k = none := by
  induction d with
  | nil => rfl
  | cons p t ih =>
      rw [List.map_cons, List.mem_cons] at h
      push_neg at h
      rw [dictGet, if_neg (fun hh => h.1 hh.symm), ih h.2]

/-- The key-by-key effect of Python `d.update(other)` on lookups, for a
well-formed (duplicate-free) `other`: keys of `other` read back the incoming
value, all other keys keep the old value. -/
theorem dictGet_dictUpdate (d other : List (String × Int)) (k : String)
    (hnd : (other.map Prod.fst).Nodup) :
    dictGet (dictUpdate d other) k =
      if (dictGet other k).isSome then dictGet other k else dictGet d k := by
  induction other generalizing d with
  | nil => simp [dictUpdate, dictGet]
  | cons p t ih =>
      rw [List.map_cons, List.nodup_cons] at hnd
      rw [show dictUpdate d (p :: t) = dictUpdate (dictSet d p.1 p.2) t from rfl,
        ih (dictSet d p.1 p.2) hnd.2]
      by_cases hk : p.1 = k
      · have htk : dictGet t k = none := dictGet_eq_none t k (hk ▸ hnd.1)
        simp [dictGet, hk, htk, dictGet_dictSet]
      · have hkk : ¬(k = p.1) := fun hh => hk hh.symm
        simp [dictGet, hk, hkk, dictGet_dictSet]

theorem sinsert_ne_nil (s : List String) (x : String) : sinsert s x ≠ [] := by
  unfold sinsert
  by_cases h : x ∈ s
  · rw [if_pos h]
    exact List.ne_nil_of_mem h
  · rw [if_neg h]
    simp

theorem sunion_eq_nil_iff (other s : List String) :
    sunion s other = [] ↔ s = [] ∧ other = [] := by
  induction other generalizing s with
  | nil => simp [sunion]
  | cons a t ih =>
      rw [show sunion s (a :: t) = sunion (sinsert s a) t from rfl, ih]
      simp [sinsert_ne_nil]

theorem mem_sinsert (s : List String) (x y : String) :
    y ∈ sinsert s x ↔ y ∈ s ∨ y = x := by
  unfold sinsert
  by_cases h : x ∈ s
  · rw [if_pos h]
    constructor
    · exact Or.inl
    · rintro (hy | rfl)
      · exact hy
      · exact h
  · rw [if_neg h]
    simp

theorem mem_sunion (other s : List String) (y : String) :
    y ∈ sunion s other ↔ y ∈ s ∨ y ∈ other := by
  induction other generalizing s with
  | nil => simp [sunion]
  | cons a t ih =>
      rw [show sunion s (a :: t) = sunion (sinsert s a) t from rfl, ih,
        mem_sinsert, List.mem_cons]
      exact or_assoc

/-- C6: `update(self, snode)` overwrites `self.available` key-by-key with
every key of `snode.available` (a key present in both ends with the incoming
value), makes `required` read back as the disjunction of both
`required` values and the non-emptiness of the incoming assignments, adds all
of the incoming assignments, merges the incoming metadata, and logs each changed
key at `FINE` level exactly when the prior value was unset or `snode` has
assignments, otherwise at `WARNING` level; every changed key is logged.
The `Nodup` hypotheses state that the incoming Python dictionaries have
unique keys. -/
theorem c6_update_merges (self snode : Node)
    (hnd : (snode.available.map Prod.fst).Nodup)
    (hndm : (snode.metadata.map Prod.fst).Nodup) :
    (∀ k, dictGet (self.update snode).1.available k =
      if (dictGet snode.available k).isSome then dictGet snode.available k
      else dictGet self.available k) ∧
    ((self.update snode).1.required = true ↔
      (self.required = true ∨ snode.required = true ∨
        snode.assignments ≠ [])) ∧
    (∀ a, a ∈ (self.update snode).1.assignments ↔
      a ∈ self.assignments ∨ a ∈ snode.assignments) ∧
    (∀ k, dictGet (self.update snode).1.metadata k =
      if (dictGet snode.metadata k).isSome then dictGet snode.metadata k
      else dictGet self.metadata k) ∧
    (∀ lv attr, (lv, attr) ∈ (self.update snode).2 →
      (lv = LogLevel.fine ↔
        (dictGet self.available attr = none ∨ snode.assignments ≠ []))) ∧
    (∀ p ∈ snode.available, dictGet self.available p.1 ≠ some p.2 →
      ∃ lv, (lv, p.1) ∈ (self.update snode).2) := by
  refine ⟨?_, ?_, ?_, ?_, ?_, ?_⟩
  · intro k
    exact dictGet_dictUpdate self.available snode.available k hnd
  · simp only [Node.update, Node.set_required, Node.required]
    simp only [Bool.or_eq_true, Bool.not_eq_true', List.isEmpty_eq_false,
      ne_eq, sunion_eq_nil_iff]
    tauto
  · intro a
    exact mem_sunion snode.assignments self.assignments a
  · intro k
    exact dictGet_dictUpdate self.metadata snode.metadata k hndm
  · intro lv attr hmemlog
    rw [show (self.update snode).2 = updateLogs self snode from rfl,
      updateLogs, List.mem_filterMap] at hmemlog
    obtain ⟨p, hp, hpe⟩ := hmemlog
    by_cases hchg : dictGet self.available p.1 ≠ some p.2
    · rw [if_pos hchg, Option.some_inj] at hpe
      injection hpe with hlv hattr
      subst hattr
      by_cases hcond : dictGet self.available p.1 = none ∨
          ¬snode.assignments.isEmpty = true
      · rw [if_pos hcond] at hlv
        subst hlv
        simp only [true_iff]
        rcases hcond with hcond | hcond
        · exact Or.inl hcond
        · exact Or.inr (fun hnil => hcond (by rw [hnil]; rfl))
      · rw [if_neg hcond] at hlv
        subst hlv
        push_neg at hcond
        constructor
        · intro hwf
          exact absurd hwf (by decide)
        · intro hor
          rcases hor with hor | hor
          · exact absurd hor hcond.1
          · exact absurd (List.isEmpty_iff.mp hcond.2) hor
    · rw [if_neg hchg] at hpe
      exact absurd hpe (by simp)
  · intro p hp hchg
    refine ⟨if dictGet self.available p.1 = none ∨
        ¬snode.assignments.isEmpty = true then LogLevel.fine
      else LogLevel.warning, ?_⟩
    rw [show (self.update snode).2 = updateLogs self snode from rfl,
      updateLogs, List.mem_filterMap]
    exact ⟨p, hp, by rw [if_pos hchg]⟩

/-- Witness for C6: Scenario D — merging external `available={mem:8}` into a
node with `available={mem:16}` and empty assignments yields `mem == 8` and a
warning-level (unexpected drift) log line for `mem`. -/
theorem c6_update_merges_witness :
    (dictGet ((Node.update { baseNode with available := [("mem", 16)] }
        { baseNode with available := [("mem", 8)] }).1.available) "mem" =
      if (dictGet [("mem", 8)] "mem").isSome then dictGet [("mem", 8)] "mem"
      else dictGet [("mem", 16)] "mem") ∧
    (Node.update { baseNode with available := [("mem", 16)] }
        { baseNode with available := [("mem", 8)] }).2 =
      [(LogLevel.warning, "mem")] :=
  ⟨(c6_update_merges { baseNode with available := [("mem", 16)] }
      { baseNode with available := [("mem", 8)] } (by decide) (by decide)).1
    "mem", rfl⟩
